import Mathlib

/-!
Verification of the x86_64 CPU-identity and boot-information layer
(src/arch/src/x86_64/mod.rs).

The Rust code is shallowly embedded: CPUID tables are lists of entries,
machine integers are Nat (u32/u64 casts are made explicit with masks and
mod where the source truncates), fallible operations return Except.
Register and table manipulation functions mirror the source line by line;
the few collaborators that live outside the provided sources (the layout
constant module, the SMBIOS/MP-table writers, the hypervisor crate's
CPUID_FLAG_VALID_INDEX constant, the guest-memory abstraction) are
modelled from the spec and marked as such in their doc comments.
-/

/-- CpuIdEntry: one CPUID table row keyed by (function, index), with the
four 32-bit registers and a flags word, mirroring
hypervisor::arch::x86::CpuIdEntry. Registers are embedded as Nat. -/
structure CpuIdEntry where
  function : Nat
  index : Nat
  flags : Nat
  eax : Nat
  ebx : Nat
  ecx : Nat
  edx : Nat
deriving Repr, DecidableEq

/-- Modelled from the spec: CPUID_FLAG_VALID_INDEX is the validity flag of
an entry's sub-leaf index. The constant itself lives in the hypervisor
crate, which is not part of the provided sources; its concrete value is
irrelevant to every claim, only that new entries carry exactly it. -/
def CPUID_FLAG_VALID_INDEX : Nat := 1

/-- CpuidReg from the source: which of the four registers is addressed. -/
inductive CpuidReg where
  | EAX
  | EBX
  | ECX
  | EDX
deriving Repr, DecidableEq

/-- Read the register of an entry named by a CpuidReg selector. -/
def getReg (reg : CpuidReg) (e : CpuIdEntry) : Nat :=
  match reg with
  | .EAX => e.eax
  | .EBX => e.ebx
  | .ECX => e.ecx
  | .EDX => e.edx

/-- Overwrite the register of an entry named by a CpuidReg selector; this
is the match block that appears twice inside CpuidPatch::set_cpuid_reg. -/
def setReg (reg : CpuidReg) (value : Nat) (e : CpuIdEntry) : CpuIdEntry :=
  match reg with
  | .EAX => { e with eax := value }
  | .EBX => { e with ebx := value }
  | .ECX => { e with ecx := value }
  | .EDX => { e with edx := value }

/-- The match condition of the scan loop in CpuidPatch::set_cpuid_reg:
entry.function == function && (index.is_none() || index.unwrap() == entry.index). -/
def entryMatches (function : Nat) (index : Option Nat) (e : CpuIdEntry) : Bool :=
  e.function == function && (index.isNone || index == some e.index)

/-- Exact-key match on (function, index), as used by patch_cpuid and
is_feature_enabled: entry.function == function && entry.index == index. -/
def keyMatch (function index : Nat) (e : CpuIdEntry) : Bool :=
  e.function == function && e.index == index

/-- The entry freshly created by set_cpuid_reg when no entry matched and a
sub-leaf index was given: flags = CPUID_FLAG_VALID_INDEX, registers default
to zero. -/
def mkEntry (function index : Nat) : CpuIdEntry :=
  { function := function, index := index, flags := CPUID_FLAG_VALID_INDEX,
    eax := 0, ebx := 0, ecx := 0, edx := 0 }

/-- CpuidPatch::set_cpuid_reg: overwrite the named register with value on
every entry matching the function and (when given) index; if nothing
matched and an index was given, append a fresh entry; if nothing matched
and no index was given, the table is returned unchanged. -/
def set_cpuid_reg (cpuid : List CpuIdEntry) (function : Nat) (index : Option Nat)
    (reg : CpuidReg) (value : Nat) : List CpuIdEntry :=
  let updated := cpuid.map fun e => if entryMatches function index e then setReg reg value e else e
  if cpuid.any (entryMatches function index) then
    updated
  else
    match index with
    | some i => updated ++ [setReg reg value (mkEntry function i)]
    | none => updated

/-- CpuidPatch: a (function, index) selector plus up to five optional bit
positions to OR into the flags word and the four registers. -/
structure CpuidPatch where
  function : Nat
  index : Nat
  flags_bit : Option Nat
  eax_bit : Option Nat
  ebx_bit : Option Nat
  ecx_bit : Option Nat
  edx_bit : Option Nat
deriving Repr, DecidableEq

/-- One conditional OR of the source's patch loop: if the bit position is
present, OR 1 << bit into the value, otherwise leave it alone. -/
def orBit (v : Nat) (bit : Option Nat) : Nat :=
  match bit with
  | none => v
  | some b => v ||| (1 <<< b)

/-- The body of patch_cpuid's inner loop applied to a single entry and a
single patch: on a (function, index) match, OR every provided bit in. -/
def applyPatchToEntry (patch : CpuidPatch) (e : CpuIdEntry) : CpuIdEntry :=
  if e.function == patch.function && e.index == patch.index then
    { e with
      flags := orBit e.flags patch.flags_bit
      eax := orBit e.eax patch.eax_bit
      ebx := orBit e.ebx patch.ebx_bit
      ecx := orBit e.ecx patch.ecx_bit
      edx := orBit e.edx patch.edx_bit }
  else
    e

/-- All patches applied to one entry, in list order (the inner loop of
CpuidPatch::patch_cpuid). -/
def patchEntry (patches : List CpuidPatch) (e : CpuIdEntry) : CpuIdEntry :=
  patches.foldl (fun acc p => applyPatchToEntry p acc) e

/-- CpuidPatch::patch_cpuid: for each entry of the table, OR in the bits of
every matching patch. -/
def patch_cpuid (cpuid : List CpuIdEntry) (patches : List CpuidPatch) : List CpuIdEntry :=
  cpuid.map (patchEntry patches)

/-- CpuidPatch::is_feature_enabled: whether the given bit is set in the
named register of the first entry matching (function, index); false when no
entry matches. -/
def is_feature_enabled (cpuid : List CpuIdEntry) (function index : Nat)
    (reg : CpuidReg) (feature_bit : Nat) : Bool :=
  match cpuid.find? (keyMatch function index) with
  | some e => (getReg reg e &&& (1 <<< feature_bit)) == (1 <<< feature_bit)
  | none => false

/-- The three comparison kinds of the feature-compatibility checker. -/
inductive CpuidCompatibleCheck where
  | BitwiseSubset
  | Equal
  | NumNotGreater
deriving Repr, DecidableEq

/-- CpuidFeatureEntry: a leaf/sub-leaf/register selector plus its
comparison kind. -/
structure CpuidFeatureEntry where
  function : Nat
  index : Nat
  feature_reg : CpuidReg
  compatible_check : CpuidCompatibleCheck
deriving Repr, DecidableEq

/-- The fixed rule list of CpuidFeatureEntry::checked_feature_entry_list,
reproduced in source order. -/
def checked_feature_entry_list : List CpuidFeatureEntry :=
  [⟨1, 0, .ECX, .BitwiseSubset⟩,
   ⟨1, 0, .EDX, .BitwiseSubset⟩,
   ⟨7, 0, .EAX, .NumNotGreater⟩,
   ⟨7, 0, .EBX, .BitwiseSubset⟩,
   ⟨7, 0, .ECX, .BitwiseSubset⟩,
   ⟨7, 0, .EDX, .BitwiseSubset⟩,
   ⟨7, 1, .EAX, .BitwiseSubset⟩,
   ⟨0x80000001, 0, .ECX, .BitwiseSubset⟩,
   ⟨0x80000001, 0, .EDX, .BitwiseSubset⟩,
   ⟨0x40000000, 0, .EAX, .NumNotGreater⟩,
   ⟨0x40000000, 0, .EBX, .Equal⟩,
   ⟨0x40000000, 0, .ECX, .Equal⟩,
   ⟨0x40000000, 0, .EDX, .Equal⟩,
   ⟨0x40000001, 0, .EAX, .BitwiseSubset⟩,
   ⟨0x40000001, 0, .EBX, .BitwiseSubset⟩,
   ⟨0x40000001, 0, .ECX, .BitwiseSubset⟩,
   ⟨0x40000001, 0, .EDX, .BitwiseSubset⟩]

/-- CpuidFeatureEntry::get_features_from_cpuid: for each rule, the value of
the named register of the first matching entry, zero when absent (the
source initializes the vector with zeros and breaks on the first match). -/
def get_features_from_cpuid (cpuid : List CpuIdEntry)
    (feature_entry_list : List CpuidFeatureEntry) : List Nat :=
  feature_entry_list.map fun fe =>
    match cpuid.find? (keyMatch fe.function fe.index) with
    | some e => getReg fe.feature_reg e
    | none => 0

/-- The x86_64 module's Error enum (only the variants the embedded
operations can produce are listed). -/
inductive X86Error where
  | MpTableSetup
  | SmbiosSetup
  | NoSgxEpcSection
  | MissingSgxFeature
  | MissingSgxLaunchControlFeature
  | CpuidGetSupported
  | CpuidCheckCompatibility
  | EbdaSetup
deriving Repr, DecidableEq

/-- Modelled from the spec: the outer crate's Error type (super::Error of
the x86_64 module, not among the provided sources), with the past-end-of-RAM
and setup-failure variants configure_system/configure_pvh return, plus the
wrapper for platform-specific errors. -/
inductive ArchError where
  | RsdpPastRamEnd
  | MemmapTablePastRamEnd
  | MemmapTableSetup
  | StartInfoPastRamEnd
  | StartInfoSetup
  | ModlistSetup
  | PlatformSpecific (e : X86Error)
deriving Repr, DecidableEq

/-- One rule's comparison in check_cpuid_compatibility: bitwise subset via
(src ^ dest) & src == 0, exact equality, or numeric not-greater. -/
def entryCompatible (check : CpuidCompatibleCheck) (src dest : Nat) : Bool :=
  match check with
  | .BitwiseSubset => ((src ^^^ dest) &&& src) == 0
  | .Equal => src == dest
  | .NumNotGreater => decide (src ≤ dest)

/-- CpuidFeatureEntry::check_cpuid_compatibility: extract both feature
vectors, evaluate every rule (no short-circuit), and fail with
CpuidCheckCompatibility iff any rule failed. -/
def check_cpuid_compatibility (src_vm_cpuid dest_vm_cpuid : List CpuIdEntry) :
    Except X86Error Unit :=
  if (((get_features_from_cpuid src_vm_cpuid checked_feature_entry_list).zip
        (get_features_from_cpuid dest_vm_cpuid checked_feature_entry_list)).zip
        checked_feature_entry_list).all
      (fun p => entryCompatible p.2.compatible_check p.1.1 p.1.2) then
    .ok ()
  else
    .error .CpuidCheckCompatibility

/-- RegionType from the crate root (not among the provided sources);
modelled from the spec's region kinds RAM / device sub-region / reserved. -/
inductive RegionType where
  | Ram
  | SubRegion
  | Reserved
deriving Repr, DecidableEq

/-- Modelled from the spec: layout::MEM_32BIT_RESERVED_START, the start of
the fixed sub-4GB reserved gap. The value is pinned by the module's own
tests, which call 3328 << 20 bytes "equal to the start of the 32bit memory
hole". -/
def MEM_32BIT_RESERVED_START : Nat := 0xd0000000

/-- Modelled from the spec: layout::MEM_32BIT_DEVICES_SIZE, the size of the
32-bit device MMIO sub-region inside the reserved gap (640 MiB). -/
def MEM_32BIT_DEVICES_SIZE : Nat := 0x28000000

/-- Modelled from the spec: layout::MEM_32BIT_RESERVED_SIZE, the total size
of the reserved gap (768 MiB, so the gap ends exactly at 4 GiB). -/
def MEM_32BIT_RESERVED_SIZE : Nat := 0x30000000

/-- Modelled from the spec: layout::RAM_64BIT_START, the fixed above-4GB
RAM origin. The value is pinned by the module's own test regions_gt_4gb,
which expects the second RAM region to start at 1 << 32. -/
def RAM_64BIT_START : Nat := 0x100000000

/-- arch_memory_regions: split a requested RAM size around the fixed
sub-4GB gap, then unconditionally append the device sub-region and the
reserved sub-region descriptors. -/
def arch_memory_regions (size : Nat) : List (Nat × Nat × RegionType) :=
  (if size ≤ MEM_32BIT_RESERVED_START then
    [(0, size, RegionType.Ram)]
  else
    [(0, MEM_32BIT_RESERVED_START, RegionType.Ram),
     (RAM_64BIT_START, size - MEM_32BIT_RESERVED_START, RegionType.Ram)])
  ++ [(MEM_32BIT_RESERVED_START, MEM_32BIT_DEVICES_SIZE, RegionType.SubRegion),
      (MEM_32BIT_RESERVED_START + MEM_32BIT_DEVICES_SIZE,
        MEM_32BIT_RESERVED_SIZE - MEM_32BIT_DEVICES_SIZE, RegionType.Reserved)]

/-- A comparison with equal arguments satisfies every rule kind. -/
theorem entryCompatible_refl (check : CpuidCompatibleCheck) (x : Nat) :
    entryCompatible check x x = true := by
  cases check <;> simp [entryCompatible, Nat.xor_self, Nat.zero_and]

/-- Running the rule comparisons over a feature vector zipped with itself
always succeeds, whatever the rule list. -/
theorem all_compatible_self (f : List Nat) (fel : List CpuidFeatureEntry) :
    ((f.zip f).zip fel).all (fun p => entryCompatible p.2.compatible_check p.1.1 p.1.2)
      = true := by
  induction f generalizing fel with
  | nil => rfl
  | cons x xs ih =>
    cases fel with
    | nil => rfl
    | cons fe fes => simp [entryCompatible_refl, ih]

/-- C5: for every table T, check_cpuid_compatibility(T, T) returns Ok —
the bitwise-subset, equal and not-greater comparisons of the fixed rule
list are all reflexive, so a table is always compatible with itself. -/
theorem check_cpuid_compatibility_self (T : List CpuIdEntry) :
    check_cpuid_compatibility T T = .ok () := by
  unfold check_cpuid_compatibility
  rw [if_pos (all_compatible_self _ _)]

/-- C3: arch_memory_regions returns, for a size at most the reserved-gap
start, exactly one RAM region [0, size) followed by the device sub-region
and the reserved sub-region; for a larger size, two RAM regions — [0,
gap-start) and one starting at the fixed above-4GB origin — whose sizes sum
to the requested size, followed by the same two non-RAM regions. -/
theorem arch_memory_regions_spec (size : Nat) (hsize : size < 2 ^ 64) :
    (size ≤ MEM_32BIT_RESERVED_START →
      arch_memory_regions size =
        [(0, size, RegionType.Ram),
         (MEM_32BIT_RESERVED_START, MEM_32BIT_DEVICES_SIZE, RegionType.SubRegion),
         (MEM_32BIT_RESERVED_START + MEM_32BIT_DEVICES_SIZE,
           MEM_32BIT_RESERVED_SIZE - MEM_32BIT_DEVICES_SIZE, RegionType.Reserved)]) ∧
    (MEM_32BIT_RESERVED_START < size →
      arch_memory_regions size =
        [(0, MEM_32BIT_RESERVED_START, RegionType.Ram),
         (RAM_64BIT_START, size - MEM_32BIT_RESERVED_START, RegionType.Ram),
         (MEM_32BIT_RESERVED_START, MEM_32BIT_DEVICES_SIZE, RegionType.SubRegion),
         (MEM_32BIT_RESERVED_START + MEM_32BIT_DEVICES_SIZE,
           MEM_32BIT_RESERVED_SIZE - MEM_32BIT_DEVICES_SIZE, RegionType.Reserved)] ∧
      MEM_32BIT_RESERVED_START + (size - MEM_32BIT_RESERVED_START) = size) := by
  constructor
  · intro h
    simp [arch_memory_regions, if_pos h]
  · intro h
    refine ⟨?_, by omega⟩
    simp [arch_memory_regions, if_neg (by omega : ¬ size ≤ MEM_32BIT_RESERVED_START)]

/-- Witness for C3 at the two sizes the source's own tests use: 1 << 29
(below the gap) and (1 << 32) + 0x8000 (straddling the 4GB boundary). -/
theorem arch_memory_regions_spec_witness :
    arch_memory_regions (1 <<< 29) =
      [(0, 1 <<< 29, RegionType.Ram),
       (MEM_32BIT_RESERVED_START, MEM_32BIT_DEVICES_SIZE, RegionType.SubRegion),
       (MEM_32BIT_RESERVED_START + MEM_32BIT_DEVICES_SIZE,
         MEM_32BIT_RESERVED_SIZE - MEM_32BIT_DEVICES_SIZE, RegionType.Reserved)] ∧
    arch_memory_regions ((1 <<< 32) + 0x8000) =
      [(0, MEM_32BIT_RESERVED_START, RegionType.Ram),
       (RAM_64BIT_START, (1 <<< 32) + 0x8000 - MEM_32BIT_RESERVED_START, RegionType.Ram),
       (MEM_32BIT_RESERVED_START, MEM_32BIT_DEVICES_SIZE, RegionType.SubRegion),
       (MEM_32BIT_RESERVED_START + MEM_32BIT_DEVICES_SIZE,
         MEM_32BIT_RESERVED_SIZE - MEM_32BIT_DEVICES_SIZE, RegionType.Reserved)] :=
  ⟨(arch_memory_regions_spec (1 <<< 29) (by decide)).1 (by decide),
   ((arch_memory_regions_spec ((1 <<< 32) + 0x8000) (by decide)).2 (by decide)).1⟩

/-- With an explicit sub-leaf the scan condition of set_cpuid_reg is the
exact-key match. -/
theorem entryMatches_some (f i : Nat) (e : CpuIdEntry) :
    entryMatches f (some i) e = keyMatch f i e := by
  simp only [entryMatches, keyMatch, Option.isNone_some, Bool.false_or]
  rw [Bool.eq_iff_iff]
  simp only [Bool.and_eq_true, beq_iff_eq, Option.some.injEq]
  constructor
  · rintro ⟨h1, h2⟩
    exact ⟨h1, h2.symm⟩
  · rintro ⟨h1, h2⟩
    exact ⟨h1, h2.symm⟩

/-- Without a sub-leaf the scan condition of set_cpuid_reg is a match on
the function alone. -/
theorem entryMatches_none (f : Nat) (e : CpuIdEntry) :
    entryMatches f none e = (e.function == f) := by
  simp [entryMatches]

theorem setReg_function (reg : CpuidReg) (v : Nat) (e : CpuIdEntry) :
    (setReg reg v e).function = e.function := by
  cases reg <;> rfl

theorem setReg_index (reg : CpuidReg) (v : Nat) (e : CpuIdEntry) :
    (setReg reg v e).index = e.index := by
  cases reg <;> rfl

theorem setReg_flags (reg : CpuidReg) (v : Nat) (e : CpuIdEntry) :
    (setReg reg v e).flags = e.flags := by
  cases reg <;> rfl

theorem getReg_setReg_same (reg : CpuidReg) (v : Nat) (e : CpuIdEntry) :
    getReg reg (setReg reg v e) = v := by
  cases reg <;> rfl

theorem getReg_setReg_other (reg r : CpuidReg) (v : Nat) (e : CpuIdEntry) (h : r ≠ reg) :
    getReg r (setReg reg v e) = getReg r e := by
  cases reg <;> cases r <;> first | rfl | exact absurd rfl h

theorem keyMatch_setReg (f i : Nat) (reg : CpuidReg) (v : Nat) (e : CpuIdEntry) :
    keyMatch f i (setReg reg v e) = keyMatch f i e := by
  cases reg <;> rfl

/-- When some entry already carries the key, set_cpuid_reg with a sub-leaf
is the in-place register overwrite on every matching entry. -/
theorem set_cpuid_reg_some_found (T : List CpuIdEntry) (f i : Nat) (reg : CpuidReg) (v : Nat)
    (h : ∃ e ∈ T, keyMatch f i e = true) :
    set_cpuid_reg T f (some i) reg v =
      T.map fun e => if keyMatch f i e then setReg reg v e else e := by
  have hany : T.any (entryMatches f (some i)) = true := by
    rw [List.any_eq_true]
    obtain ⟨e, he, hm⟩ := h
    exact ⟨e, he, by rw [entryMatches_some]; exact hm⟩
  simp only [set_cpuid_reg, entryMatches_some, hany, if_true]

/-- When no entry carries the key, set_cpuid_reg with a sub-leaf appends
exactly one fresh entry and leaves the rest untouched. -/
theorem set_cpuid_reg_some_notfound (T : List CpuIdEntry) (f i : Nat) (reg : CpuidReg) (v : Nat)
    (h : ∀ e ∈ T, keyMatch f i e = false) :
    set_cpuid_reg T f (some i) reg v = T ++ [setReg reg v (mkEntry f i)] := by
  have hany : T.any (entryMatches f (some i)) = false := by
    rw [List.any_eq_false]
    intro e he
    rw [entryMatches_some, h e he]
    simp
  have hmap : (T.map fun e => if entryMatches f (some i) e then setReg reg v e else e) = T := by
    rw [show T = T.map id from (List.map_id T).symm]
    rw [List.map_map]
    refine List.map_congr_left fun e he => ?_
    simp [entryMatches_some, h e he]
  simp only [set_cpuid_reg, hany, Bool.false_eq_true, if_false]
  rw [hmap]

/-- After set_cpuid_reg with a sub-leaf, an entry with the addressed key
exists (either an existing one was overwritten or a fresh one appended). -/
theorem set_some_exists (T : List CpuIdEntry) (f i : Nat) (reg : CpuidReg) (v : Nat) :
    ∃ e ∈ set_cpuid_reg T f (some i) reg v, keyMatch f i e = true := by
  by_cases hex : ∃ e ∈ T, keyMatch f i e = true
  · obtain ⟨e, he, hm⟩ := hex
    rw [set_cpuid_reg_some_found T f i reg v ⟨e, he, hm⟩]
    refine ⟨setReg reg v e, ?_, ?_⟩
    · have := List.mem_map_of_mem (fun e => if keyMatch f i e then setReg reg v e else e) he
      simpa [hm] using this
    · rw [keyMatch_setReg]
      exact hm
  · have h : ∀ e ∈ T, keyMatch f i e = false := by
      intro e he
      by_contra hc
      exact hex ⟨e, he, by simpa using hc⟩
    rw [set_cpuid_reg_some_notfound T f i reg v h]
    refine ⟨setReg reg v (mkEntry f i), by simp, ?_⟩
    rw [keyMatch_setReg]
    simp [keyMatch, mkEntry]

/-- After set_cpuid_reg with a sub-leaf, every entry with the addressed key
reads back the written value in the addressed register. -/
theorem set_some_forall_reg (T : List CpuIdEntry) (f i : Nat) (reg : CpuidReg) (v : Nat) :
    ∀ e ∈ set_cpuid_reg T f (some i) reg v, keyMatch f i e = true → getReg reg e = v := by
  intro e he hk
  by_cases hex : ∃ e ∈ T, keyMatch f i e = true
  · rw [set_cpuid_reg_some_found T f i reg v hex] at he
    obtain ⟨e0, he0, heq⟩ := List.mem_map.mp he
    by_cases h0 : keyMatch f i e0 = true
    · rw [if_pos h0] at heq
      rw [← heq]
      exact getReg_setReg_same reg v e0
    · rw [if_neg h0] at heq
      rw [← heq] at hk
      exact absurd hk h0
  · have h : ∀ e ∈ T, keyMatch f i e = false := by
      intro e2 he2
      by_contra hc
      exact hex ⟨e2, he2, by simpa using hc⟩
    rw [set_cpuid_reg_some_notfound T f i reg v h] at he
    rcases List.mem_append.mp he with hin | hnew
    · exact absurd hk (by simp [h e hin])
    · rw [List.mem_singleton.mp hnew]
      exact getReg_setReg_same reg v (mkEntry f i)

/-- Overwriting one register at a key preserves any other register's value
on the key's entries, provided the key was already present. -/
theorem set_some_preserve_reg (T : List CpuIdEntry) (f i : Nat) (reg : CpuidReg) (v : Nat)
    (r : CpuidReg) (hr : r ≠ reg) (w : Nat)
    (hfound : ∃ e ∈ T, keyMatch f i e = true)
    (hw : ∀ e ∈ T, keyMatch f i e = true → getReg r e = w) :
    ∀ e ∈ set_cpuid_reg T f (some i) reg v, keyMatch f i e = true → getReg r e = w := by
  intro e he hk
  rw [set_cpuid_reg_some_found T f i reg v hfound] at he
  obtain ⟨e0, he0, heq⟩ := List.mem_map.mp he
  by_cases h0 : keyMatch f i e0 = true
  · rw [if_pos h0] at heq
    rw [← heq]
    rw [getReg_setReg_other reg r v e0 hr]
    exact hw e0 he0 h0
  · rw [if_neg h0] at heq
    rw [← heq] at hk
    exact absurd hk h0

/-- Entries carrying a different key are untouched by set_cpuid_reg with a
sub-leaf: membership at that key is preserved in both directions. -/
theorem set_some_frame (T : List CpuIdEntry) (f i : Nat) (reg : CpuidReg) (v : Nat)
    (f2 i2 : Nat) (hne : ¬(f2 = f ∧ i2 = i)) :
    ∀ e : CpuIdEntry, keyMatch f2 i2 e = true →
      (e ∈ set_cpuid_reg T f (some i) reg v ↔ e ∈ T) := by
  intro e hk
  have hkey : e.function = f2 ∧ e.index = i2 := by
    simpa [keyMatch] using hk
  have hnot : ¬ keyMatch f i e = true := by
    simp only [keyMatch, Bool.and_eq_true, beq_iff_eq]
    rintro ⟨h1, h2⟩
    exact hne ⟨hkey.1 ▸ h1, hkey.2 ▸ h2⟩
  by_cases hex : ∃ e0 ∈ T, keyMatch f i e0 = true
  · rw [set_cpuid_reg_some_found T f i reg v hex]
    constructor
    · intro he
      obtain ⟨e0, he0, heq⟩ := List.mem_map.mp he
      by_cases h0 : keyMatch f i e0 = true
      · exfalso
        rw [if_pos h0] at heq
        rw [← heq] at hnot
        rw [keyMatch_setReg] at hnot
        exact hnot h0
      · rw [if_neg h0] at heq
        rw [← heq]
        exact he0
    · intro he
      have := List.mem_map_of_mem (fun e => if keyMatch f i e then setReg reg v e else e) he
      simpa [hnot] using this
  · have h : ∀ e0 ∈ T, keyMatch f i e0 = false := by
      intro e2 he2
      by_contra hc
      exact hex ⟨e2, he2, by simpa using hc⟩
    rw [set_cpuid_reg_some_notfound T f i reg v h]
    constructor
    · intro he
      rcases List.mem_append.mp he with hin | hnew
      · exact hin
      · exfalso
        rw [List.mem_singleton.mp hnew] at hnot
        rw [keyMatch_setReg] at hnot
        exact hnot (by simp [keyMatch, mkEntry])
    · intro he
      exact List.mem_append_left _ he

/-- The in-place overwrite pass of set_cpuid_reg never changes how many
entries carry any given key. -/
theorem countP_key_map_upd (T : List CpuIdEntry) (f i : Nat) (reg : CpuidReg) (v : Nat)
    (f2 i2 : Nat) :
    (T.map fun e => if keyMatch f i e then setReg reg v e else e).countP (keyMatch f2 i2)
      = T.countP (keyMatch f2 i2) := by
  induction T with
  | nil => rfl
  | cons a T ih =>
    simp only [List.map_cons, List.countP_cons, ih]
    by_cases h : keyMatch f i a = true
    · rw [if_pos h, keyMatch_setReg]
    · rw [if_neg h]

/-- After set_cpuid_reg with a sub-leaf there is exactly one entry carrying
the addressed key, provided the table held at most one before. -/
theorem set_some_countP_eq_one (T : List CpuIdEntry) (f i : Nat) (reg : CpuidReg) (v : Nat)
    (hU : T.countP (keyMatch f i) ≤ 1) :
    (set_cpuid_reg T f (some i) reg v).countP (keyMatch f i) = 1 := by
  by_cases hex : ∃ e ∈ T, keyMatch f i e = true
  · rw [set_cpuid_reg_some_found T f i reg v hex, countP_key_map_upd]
    have hpos : 0 < T.countP (keyMatch f i) := List.countP_pos_iff.mpr hex
    omega
  · have h : ∀ e ∈ T, keyMatch f i e = false := by
      intro e2 he2
      by_contra hc
      exact hex ⟨e2, he2, by simpa using hc⟩
    rw [set_cpuid_reg_some_notfound T f i reg v h, List.countP_append]
    have hzero : T.countP (keyMatch f i) = 0 := by
      rw [List.countP_eq_zero]
      intro e2 he2
      simp [h e2 he2]
    rw [hzero]
    have hk : keyMatch f i (setReg reg v (mkEntry f i)) = true := by
      rw [keyMatch_setReg]
      simp [keyMatch, mkEntry]
    simp [List.countP_cons, hk]

/-- Set_cpuid_reg with a sub-leaf leaves the entry count of every other key
unchanged. -/
theorem set_some_countP_other (T : List CpuIdEntry) (f i : Nat) (reg : CpuidReg) (v : Nat)
    (f2 i2 : Nat) (hne : ¬(f2 = f ∧ i2 = i)) :
    (set_cpuid_reg T f (some i) reg v).countP (keyMatch f2 i2) = T.countP (keyMatch f2 i2) := by
  by_cases hex : ∃ e ∈ T, keyMatch f i e = true
  · rw [set_cpuid_reg_some_found T f i reg v hex, countP_key_map_upd]
  · have h : ∀ e ∈ T, keyMatch f i e = false := by
      intro e2 he2
      by_contra hc
      exact hex ⟨e2, he2, by simpa using hc⟩
    rw [set_cpuid_reg_some_notfound T f i reg v h, List.countP_append]
    have : keyMatch f2 i2 (setReg reg v (mkEntry f i)) = false := by
      rw [keyMatch_setReg]
      simp only [keyMatch, mkEntry, Bool.and_eq_true, beq_iff_eq]
      by_contra hc
      simp only [Bool.not_eq_false, Bool.and_eq_true, beq_iff_eq] at hc
      exact hne ⟨hc.1.symm, hc.2.symm⟩
    simp [List.countP_cons, this]

/-- Set_cpuid_reg with a sub-leaf preserves the at-most-one-entry-per-key
invariant of a CPUID table. -/
theorem set_some_countP_le (T : List CpuIdEntry) (f i : Nat) (reg : CpuidReg) (v : Nat)
    (hU : ∀ f2 i2, T.countP (keyMatch f2 i2) ≤ 1) :
    ∀ f2 i2, (set_cpuid_reg T f (some i) reg v).countP (keyMatch f2 i2) ≤ 1 := by
  intro f2 i2
  by_cases heq : f2 = f ∧ i2 = i
  · rw [heq.1, heq.2, set_some_countP_eq_one T f i reg v (hU f i)]
  · rw [set_some_countP_other T f i reg v f2 i2 heq]
    exact hU f2 i2

/-- C7: set_cpuid_reg called with a sub-leaf index when no entry matches
appends exactly one new entry carrying that leaf and sub-leaf, the validity
flag, the named register set to the value and the other three registers
zero; called without a sub-leaf index when no entry of the leaf exists, it
returns the table unchanged. -/
theorem set_cpuid_reg_missing_entry (T : List CpuIdEntry) (f i : Nat) (reg : CpuidReg)
    (v : Nat) :
    ((∀ e ∈ T, ¬(e.function = f ∧ e.index = i)) →
      set_cpuid_reg T f (some i) reg v = T ++ [setReg reg v (mkEntry f i)] ∧
      (setReg reg v (mkEntry f i)).function = f ∧
      (setReg reg v (mkEntry f i)).index = i ∧
      (setReg reg v (mkEntry f i)).flags = CPUID_FLAG_VALID_INDEX ∧
      getReg reg (setReg reg v (mkEntry f i)) = v ∧
      (∀ r : CpuidReg, r ≠ reg → getReg r (setReg reg v (mkEntry f i)) = 0)) ∧
    ((∀ e ∈ T, e.function ≠ f) → set_cpuid_reg T f none reg v = T) := by
  constructor
  · intro hno
    have h : ∀ e ∈ T, keyMatch f i e = false := by
      intro e he
      simp only [keyMatch, Bool.and_eq_true, beq_iff_eq]
      by_contra hc
      simp only [Bool.not_eq_false, Bool.and_eq_true, beq_iff_eq] at hc
      exact hno e he hc
    refine ⟨set_cpuid_reg_some_notfound T f i reg v h, ?_, ?_, ?_, ?_, ?_⟩
    · rw [setReg_function]
      rfl
    · rw [setReg_index]
      rfl
    · rw [setReg_flags]
      rfl
    · exact getReg_setReg_same reg v (mkEntry f i)
    · intro r hr
      rw [getReg_setReg_other reg r v (mkEntry f i) hr]
      cases r <;> rfl
  · intro hno
    have hany : T.any (entryMatches f none) = false := by
      rw [List.any_eq_false]
      intro e he
      rw [entryMatches_none]
      simp [hno e he]
    have hmap : (T.map fun e => if entryMatches f none e then setReg reg v e else e) = T := by
      rw [show T = T.map id from (List.map_id T).symm]
      rw [List.map_map]
      refine List.map_congr_left fun e he => ?_
      simp [entryMatches_none, hno e he]
    simp only [set_cpuid_reg, hany, Bool.false_eq_true, if_false]
    rw [hmap]

/-- Witness for C7 on the empty table: the targeted form appends exactly
one fresh entry, the broadcast form is a no-op. -/
theorem set_cpuid_reg_missing_entry_witness :
    set_cpuid_reg [] 0x12 (some 3) .ECX 5 = [] ++ [setReg .ECX 5 (mkEntry 0x12 3)] ∧
    set_cpuid_reg [] 0x12 none .ECX 5 = [] :=
  ⟨((set_cpuid_reg_missing_entry [] 0x12 3 .ECX 5).1 (by simp)).1,
   (set_cpuid_reg_missing_entry [] 0x12 3 .ECX 5).2 (by simp)⟩

/-- The OR mask contributed by one optional patch bit: 0 when absent,
1 << bit when present. -/
def maskOf : Option Nat → Nat
  | none => 0
  | some b => 1 <<< b

theorem orBit_eq (v : Nat) (bit : Option Nat) : orBit v bit = v ||| maskOf bit := by
  cases bit with
  | none => simp [orBit, maskOf]
  | some b => rfl

/-- The five accumulated OR masks that the patch list contributes to an
entry with the given key, one component each for flags/eax/ebx/ecx/edx. -/
def patchMasks (f i : Nat) : List CpuidPatch → Nat × Nat × Nat × Nat × Nat
  | [] => (0, 0, 0, 0, 0)
  | p :: ps =>
    if f == p.function && i == p.index then
      (maskOf p.flags_bit ||| (patchMasks f i ps).1,
       maskOf p.eax_bit ||| (patchMasks f i ps).2.1,
       maskOf p.ebx_bit ||| (patchMasks f i ps).2.2.1,
       maskOf p.ecx_bit ||| (patchMasks f i ps).2.2.2.1,
       maskOf p.edx_bit ||| (patchMasks f i ps).2.2.2.2)
    else
      patchMasks f i ps

/-- Applying a patch list to an entry ORs the accumulated masks of the
entry's key into the flags word and the four registers, and changes
nothing else. -/
theorem patchEntry_char (ps : List CpuidPatch) (e : CpuIdEntry) :
    patchEntry ps e =
      { function := e.function, index := e.index,
        flags := e.flags ||| (patchMasks e.function e.index ps).1,
        eax := e.eax ||| (patchMasks e.function e.index ps).2.1,
        ebx := e.ebx ||| (patchMasks e.function e.index ps).2.2.1,
        ecx := e.ecx ||| (patchMasks e.function e.index ps).2.2.2.1,
        edx := e.edx ||| (patchMasks e.function e.index ps).2.2.2.2 } := by
  induction ps generalizing e with
  | nil => simp [patchEntry, patchMasks]
  | cons p ps ih =>
    have h1 : patchEntry (p :: ps) e = patchEntry ps (applyPatchToEntry p e) := rfl
    rw [h1, ih]
    by_cases hm : (e.function == p.function && e.index == p.index) = true
    · simp only [applyPatchToEntry, patchMasks, hm, if_true]
      simp [orBit_eq, Nat.or_assoc]
    · have happ : applyPatchToEntry p e = e := by
        unfold applyPatchToEntry
        rw [if_neg hm]
      rw [happ]
      have hmask : patchMasks e.function e.index (p :: ps) = patchMasks e.function e.index ps := by
        simp only [patchMasks]
        rw [if_neg hm]
      rw [hmask]

theorem patchEntry_function (ps : List CpuidPatch) (e : CpuIdEntry) :
    (patchEntry ps e).function = e.function := by
  rw [patchEntry_char]

theorem patchEntry_index (ps : List CpuidPatch) (e : CpuIdEntry) :
    (patchEntry ps e).index = e.index := by
  rw [patchEntry_char]

/-- Applying the same patch list to an already-patched entry changes
nothing: the same masks get ORed in a second time. -/
theorem patchEntry_idem (ps : List CpuidPatch) (e : CpuIdEntry) :
    patchEntry ps (patchEntry ps e) = patchEntry ps e := by
  rw [patchEntry_char ps e, patchEntry_char ps _]
  simp [← Nat.or_assoc, Nat.or_self, Nat.or_assoc]

/-- Patching an entry can only add bits: any bit set before is still set
after, in the flags word and in each register. -/
theorem patchEntry_monotone (ps : List CpuidPatch) (e : CpuIdEntry) (b : Nat) :
    (e.flags.testBit b = true → (patchEntry ps e).flags.testBit b = true) ∧
    (e.eax.testBit b = true → (patchEntry ps e).eax.testBit b = true) ∧
    (e.ebx.testBit b = true → (patchEntry ps e).ebx.testBit b = true) ∧
    (e.ecx.testBit b = true → (patchEntry ps e).ecx.testBit b = true) ∧
    (e.edx.testBit b = true → (patchEntry ps e).edx.testBit b = true) := by
  rw [patchEntry_char]
  refine ⟨fun h => ?_, fun h => ?_, fun h => ?_, fun h => ?_, fun h => ?_⟩ <;>
    simp [Nat.testBit_or, h]

/-- C6: patch_cpuid only ORs bits into registers — every bit set in any
register or the flags field of any entry before the call is still set
after — and applying the same patch list twice yields the same table as
applying it once. -/
theorem patch_cpuid_or_only (T : List CpuIdEntry) (ps : List CpuidPatch) :
    (∀ k (hk : k < T.length) (hk2 : k < (patch_cpuid T ps).length) (b : Nat),
      ((T.get ⟨k, hk⟩).flags.testBit b = true →
        ((patch_cpuid T ps).get ⟨k, hk2⟩).flags.testBit b = true) ∧
      ((T.get ⟨k, hk⟩).eax.testBit b = true →
        ((patch_cpuid T ps).get ⟨k, hk2⟩).eax.testBit b = true) ∧
      ((T.get ⟨k, hk⟩).ebx.testBit b = true →
        ((patch_cpuid T ps).get ⟨k, hk2⟩).ebx.testBit b = true) ∧
      ((T.get ⟨k, hk⟩).ecx.testBit b = true →
        ((patch_cpuid T ps).get ⟨k, hk2⟩).ecx.testBit b = true) ∧
      ((T.get ⟨k, hk⟩).edx.testBit b = true →
        ((patch_cpuid T ps).get ⟨k, hk2⟩).edx.testBit b = true)) ∧
    patch_cpuid (patch_cpuid T ps) ps = patch_cpuid T ps := by
  constructor
  · intro k hk hk2 b
    have hget : (patch_cpuid T ps).get ⟨k, hk2⟩ = patchEntry ps (T.get ⟨k, hk⟩) := by
      simp [patch_cpuid, List.get_eq_getElem, List.getElem_map]
    rw [hget]
    exact patchEntry_monotone ps (T.get ⟨k, hk⟩) b
  · unfold patch_cpuid
    rw [List.map_map]
    refine List.map_congr_left fun e _ => ?_
    exact patchEntry_idem ps e

/-- Witness for C6 on a one-entry table and the source's TSC-deadline
patch: the preexisting EAX bit 0 survives, and a second application of the
patch list is a no-op. -/
theorem patch_cpuid_or_only_witness :
    ((patch_cpuid [⟨1, 0, 0, 1, 0, 0, 0⟩] [⟨1, 0, none, none, none, some 24, none⟩]).get
      ⟨0, by decide⟩).eax.testBit 0 = true ∧
    patch_cpuid (patch_cpuid [⟨1, 0, 0, 1, 0, 0, 0⟩] [⟨1, 0, none, none, none, some 24, none⟩])
        [⟨1, 0, none, none, none, some 24, none⟩]
      = patch_cpuid [⟨1, 0, 0, 1, 0, 0, 0⟩] [⟨1, 0, none, none, none, some 24, none⟩] :=
  ⟨((patch_cpuid_or_only [⟨1, 0, 0, 1, 0, 0, 0⟩] [⟨1, 0, none, none, none, some 24, none⟩]).1
      0 (by decide) (by decide) 0).2.1 (by decide),
   (patch_cpuid_or_only [⟨1, 0, 0, 1, 0, 0, 0⟩] [⟨1, 0, none, none, none, some 24, none⟩]).2⟩

/-- C10: patch_cpuid preserves the table's length and the (leaf, sub-leaf)
key of every entry — it never appends, removes or re-keys — and a patch
whose key matches no existing entry has no effect at all on the table. -/
theorem patch_cpuid_frame (T : List CpuIdEntry) (ps : List CpuidPatch) (p : CpuidPatch) :
    (patch_cpuid T ps).length = T.length ∧
    (∀ k (hk : k < T.length) (hk2 : k < (patch_cpuid T ps).length),
      ((patch_cpuid T ps).get ⟨k, hk2⟩).function = (T.get ⟨k, hk⟩).function ∧
      ((patch_cpuid T ps).get ⟨k, hk2⟩).index = (T.get ⟨k, hk⟩).index) ∧
    ((∀ e ∈ T, ¬(e.function = p.function ∧ e.index = p.index)) →
      patch_cpuid T (p :: ps) = patch_cpuid T ps) := by
  refine ⟨by simp [patch_cpuid], ?_, ?_⟩
  · intro k hk hk2
    have hget : (patch_cpuid T ps).get ⟨k, hk2⟩ = patchEntry ps (T.get ⟨k, hk⟩) := by
      simp [patch_cpuid, List.get_eq_getElem, List.getElem_map]
    rw [hget]
    exact ⟨patchEntry_function ps _, patchEntry_index ps _⟩
  · intro hno
    unfold patch_cpuid
    refine List.map_congr_left fun e he => ?_
    have happ : applyPatchToEntry p e = e := by
      unfold applyPatchToEntry
      have hcond : ¬ (e.function == p.function && e.index == p.index) = true := by
        simp only [Bool.and_eq_true, beq_iff_eq]
        exact hno e he
      rw [if_neg hcond]
    have h1 : patchEntry (p :: ps) e = patchEntry ps (applyPatchToEntry p e) := rfl
    rw [h1, happ]

/-- Witness for C10 on a one-entry table: length preserved, and a patch
aimed at an absent leaf leaves the patched table untouched. -/
theorem patch_cpuid_frame_witness :
    (patch_cpuid [(⟨1, 0, 0, 0, 0, 0, 0⟩ : CpuIdEntry)] []).length = 1 ∧
    patch_cpuid [(⟨1, 0, 0, 0, 0, 0, 0⟩ : CpuIdEntry)]
        [⟨2, 0, none, some 3, none, none, none⟩]
      = patch_cpuid [(⟨1, 0, 0, 0, 0, 0, 0⟩ : CpuIdEntry)] [] :=
  ⟨(patch_cpuid_frame [⟨1, 0, 0, 0, 0, 0, 0⟩] [] ⟨2, 0, none, some 3, none, none, none⟩).1,
   (patch_cpuid_frame [⟨1, 0, 0, 0, 0, 0, 0⟩] [] ⟨2, 0, none, some 3, none, none, none⟩).2.2
     (by decide)⟩

/-- Three consecutive set_cpuid_reg calls writing EAX, EBX, ECX at one
(function, sub-leaf) key — the per-level shape of update_cpuid_topology. -/
def setThreeRegs (cpuid : List CpuIdEntry) (f i a b c : Nat) : List CpuIdEntry :=
  set_cpuid_reg (set_cpuid_reg (set_cpuid_reg cpuid f (some i) .EAX a) f (some i) .EBX b)
    f (some i) .ECX c

/-- Four consecutive set_cpuid_reg calls writing EAX, EBX, ECX, EDX at one
(function, sub-leaf) key — the per-sub-leaf shape of update_cpuid_sgx. -/
def setFourRegs (cpuid : List CpuIdEntry) (f i a b c d : Nat) : List CpuIdEntry :=
  set_cpuid_reg (setThreeRegs cpuid f i a b c) f (some i) .EDX d

/-- After writing EAX/EBX/ECX at a key: a matching entry exists, every
matching entry carries the three written values, and entries at any other
key are untouched. -/
theorem setThree_vals (T : List CpuIdEntry) (f i a b c : Nat) :
    (∃ e ∈ setThreeRegs T f i a b c, keyMatch f i e = true) ∧
    (∀ e ∈ setThreeRegs T f i a b c, keyMatch f i e = true →
      e.eax = a ∧ e.ebx = b ∧ e.ecx = c) ∧
    (∀ f2 i2, ¬(f2 = f ∧ i2 = i) → ∀ e : CpuIdEntry, keyMatch f2 i2 e = true →
      (e ∈ setThreeRegs T f i a b c ↔ e ∈ T)) := by
  have hex1 := set_some_exists T f i .EAX a
  have heax1 := set_some_forall_reg T f i .EAX a
  have hex2 := set_some_exists (set_cpuid_reg T f (some i) .EAX a) f i .EBX b
  have heax2 := set_some_preserve_reg (set_cpuid_reg T f (some i) .EAX a) f i .EBX b .EAX
    (by decide) a hex1 heax1
  have hebx2 := set_some_forall_reg (set_cpuid_reg T f (some i) .EAX a) f i .EBX b
  have hex3 := set_some_exists
    (set_cpuid_reg (set_cpuid_reg T f (some i) .EAX a) f (some i) .EBX b) f i .ECX c
  have heax3 := set_some_preserve_reg
    (set_cpuid_reg (set_cpuid_reg T f (some i) .EAX a) f (some i) .EBX b) f i .ECX c .EAX
    (by decide) a hex2 heax2
  have hebx3 := set_some_preserve_reg
    (set_cpuid_reg (set_cpuid_reg T f (some i) .EAX a) f (some i) .EBX b) f i .ECX c .EBX
    (by decide) b hex2 hebx2
  have hecx3 := set_some_forall_reg
    (set_cpuid_reg (set_cpuid_reg T f (some i) .EAX a) f (some i) .EBX b) f i .ECX c
  refine ⟨hex3, ?_, ?_⟩
  · intro e he hk
    exact ⟨heax3 e he hk, hebx3 e he hk, hecx3 e he hk⟩
  · intro f2 i2 hne e hk
    rw [show setThreeRegs T f i a b c
        = set_cpuid_reg (set_cpuid_reg (set_cpuid_reg T f (some i) .EAX a) f (some i) .EBX b)
            f (some i) .ECX c from rfl]
    rw [set_some_frame _ f i .ECX c f2 i2 hne e hk,
      set_some_frame _ f i .EBX b f2 i2 hne e hk,
      set_some_frame _ f i .EAX a f2 i2 hne e hk]

/-- After writing all four registers at a key: a matching entry exists,
every matching entry carries the four written values, and entries at any
other key are untouched. -/
theorem setFour_vals (T : List CpuIdEntry) (f i a b c d : Nat) :
    (∃ e ∈ setFourRegs T f i a b c d, keyMatch f i e = true) ∧
    (∀ e ∈ setFourRegs T f i a b c d, keyMatch f i e = true →
      e.eax = a ∧ e.ebx = b ∧ e.ecx = c ∧ e.edx = d) ∧
    (∀ f2 i2, ¬(f2 = f ∧ i2 = i) → ∀ e : CpuIdEntry, keyMatch f2 i2 e = true →
      (e ∈ setFourRegs T f i a b c d ↔ e ∈ T)) := by
  obtain ⟨hex3, hvals3, hframe3⟩ := setThree_vals T f i a b c
  have hex4 := set_some_exists (setThreeRegs T f i a b c) f i .EDX d
  have heax4 := set_some_preserve_reg (setThreeRegs T f i a b c) f i .EDX d .EAX
    (by decide) a hex3 (fun e he hk => (hvals3 e he hk).1)
  have hebx4 := set_some_preserve_reg (setThreeRegs T f i a b c) f i .EDX d .EBX
    (by decide) b hex3 (fun e he hk => (hvals3 e he hk).2.1)
  have hecx4 := set_some_preserve_reg (setThreeRegs T f i a b c) f i .EDX d .ECX
    (by decide) c hex3 (fun e he hk => (hvals3 e he hk).2.2)
  have hedx4 := set_some_forall_reg (setThreeRegs T f i a b c) f i .EDX d
  refine ⟨hex4, ?_, ?_⟩
  · intro e he hk
    exact ⟨heax4 e he hk, hebx4 e he hk, hecx4 e he hk, hedx4 e he hk⟩
  · intro f2 i2 hne e hk
    rw [show setFourRegs T f i a b c d
        = set_cpuid_reg (setThreeRegs T f i a b c) f (some i) .EDX d from rfl]
    rw [set_some_frame _ f i .EDX d f2 i2 hne e hk]
    exact hframe3 f2 i2 hne e hk

/-- Counting form of setFourRegs: the uniqueness invariant is preserved,
the addressed key ends with exactly one entry, other keys keep their
counts. -/
theorem setFour_counts (T : List CpuIdEntry) (f i a b c d : Nat)
    (hU : ∀ f2 i2, T.countP (keyMatch f2 i2) ≤ 1) :
    (∀ f2 i2, (setFourRegs T f i a b c d).countP (keyMatch f2 i2) ≤ 1) ∧
    (setFourRegs T f i a b c d).countP (keyMatch f i) = 1 ∧
    (∀ f2 i2, ¬(f2 = f ∧ i2 = i) →
      (setFourRegs T f i a b c d).countP (keyMatch f2 i2) = T.countP (keyMatch f2 i2)) := by
  have hU1 := set_some_countP_le T f i .EAX a hU
  have hU2 := set_some_countP_le (set_cpuid_reg T f (some i) .EAX a) f i .EBX b hU1
  have hU3 := set_some_countP_le
    (set_cpuid_reg (set_cpuid_reg T f (some i) .EAX a) f (some i) .EBX b) f i .ECX c hU2
  have hU4 := set_some_countP_le (setThreeRegs T f i a b c) f i .EDX d hU3
  refine ⟨hU4, ?_, ?_⟩
  · exact set_some_countP_eq_one (setThreeRegs T f i a b c) f i .EDX d (hU3 f i)
  · intro f2 i2 hne
    rw [show setFourRegs T f i a b c d
        = set_cpuid_reg (setThreeRegs T f i a b c) f (some i) .EDX d from rfl]
    rw [set_some_countP_other _ f i .EDX d f2 i2 hne]
    rw [show setThreeRegs T f i a b c
        = set_cpuid_reg (set_cpuid_reg (set_cpuid_reg T f (some i) .EAX a) f (some i) .EBX b)
            f (some i) .ECX c from rfl]
    rw [set_some_countP_other _ f i .ECX c f2 i2 hne,
      set_some_countP_other _ f i .EBX b f2 i2 hne,
      set_some_countP_other _ f i .EAX a f2 i2 hne]

/-- EAX of one synthesized SGX EPC sub-leaf: low bits of the section start
(page-masked, cast to u32) with the validity bit 0 set. -/
def sgxSectionEax (start : Nat) : Nat :=
  ((start &&& 0xfffff000) % 4294967296) ||| 0x1

/-- EBX of one synthesized SGX EPC sub-leaf: high half of the section
start (cast to u32). -/
def sgxSectionEbx (start : Nat) : Nat :=
  (start >>> 32) % 4294967296

/-- ECX of one synthesized SGX EPC sub-leaf: low bits of the section size
(page-masked, cast to u32) combined with the host's cache-property low
nibble from host CPUID leaf 0x12 sub-leaf 2. -/
def sgxSectionEcx (size hostEcx : Nat) : Nat :=
  ((size &&& 0xfffff000) % 4294967296) ||| (hostEcx &&& 0xf)

/-- EDX of one synthesized SGX EPC sub-leaf: high half of the section size
(cast to u32). -/
def sgxSectionEdx (size : Nat) : Nat :=
  (size >>> 32) % 4294967296

/-- The enumerated loop of update_cpuid_sgx: the section at position i is
written into leaf 0x12 sub-leaf i + 2, one register at a time via
set_cpuid_reg. The hostEcx argument stands for the ECX value of the host's
CPUID leaf 0x12 sub-leaf 2 (a host instruction in the source). -/
def sgxApplySections (hostEcx : Nat) :
    List CpuIdEntry → List (Nat × Nat) → Nat → List CpuIdEntry
  | cpuid, [], _ => cpuid
  | cpuid, (start, size) :: rest, i =>
    sgxApplySections hostEcx
      (setFourRegs cpuid 0x12 (i + 2) (sgxSectionEax start) (sgxSectionEbx start)
        (sgxSectionEcx size hostEcx) (sgxSectionEdx size))
      rest (i + 1)

/-- update_cpuid_sgx: refuse an empty section list, then require the SGX
(leaf 7 EBX bit 2) and SGX_LC (leaf 7 ECX bit 30) feature bits, then write
one sub-leaf per section starting at sub-leaf 2 and terminate the list
with an all-zero sub-leaf. The table is returned alongside the result to
model the in-place &mut argument. -/
def update_cpuid_sgx (cpuid : List CpuIdEntry) (epc_sections : List (Nat × Nat))
    (hostEcx : Nat) : Except X86Error Unit × List CpuIdEntry :=
  if epc_sections.isEmpty then
    (.error .NoSgxEpcSection, cpuid)
  else if !(is_feature_enabled cpuid 0x7 0 .EBX 2) then
    (.error .MissingSgxFeature, cpuid)
  else if !(is_feature_enabled cpuid 0x7 0 .ECX 30) then
    (.error .MissingSgxLaunchControlFeature, cpuid)
  else
    (.ok (), setFourRegs (sgxApplySections hostEcx cpuid epc_sections 0) 0x12
      (epc_sections.length + 2) 0 0 0 0)

/-- Induction workhorse for C4: after the enumerated section loop, every
position k < N has exactly one entry at key (0x12, i+2+k) carrying that
section's four register values; keys outside the written window, including
every other leaf, keep their counts and their entries. -/
theorem sgxApplySections_spec (hostEcx : Nat) (sections : List (Nat × Nat)) :
    ∀ (i : Nat) (T : List CpuIdEntry), (∀ f2 i2, T.countP (keyMatch f2 i2) ≤ 1) →
    (∀ f2 i2, (sgxApplySections hostEcx T sections i).countP (keyMatch f2 i2) ≤ 1) ∧
    (∀ k (hk : k < sections.length),
      (sgxApplySections hostEcx T sections i).countP (keyMatch 0x12 (i + 2 + k)) = 1 ∧
      ∀ e ∈ sgxApplySections hostEcx T sections i, keyMatch 0x12 (i + 2 + k) e = true →
        e.eax = sgxSectionEax (sections.get ⟨k, hk⟩).1 ∧
        e.ebx = sgxSectionEbx (sections.get ⟨k, hk⟩).1 ∧
        e.ecx = sgxSectionEcx (sections.get ⟨k, hk⟩).2 hostEcx ∧
        e.edx = sgxSectionEdx (sections.get ⟨k, hk⟩).2) ∧
    (∀ f2 i2, (f2 ≠ 0x12 ∨ i2 < i + 2 ∨ i + 2 + sections.length ≤ i2) →
      (sgxApplySections hostEcx T sections i).countP (keyMatch f2 i2)
        = T.countP (keyMatch f2 i2) ∧
      ∀ e : CpuIdEntry, keyMatch f2 i2 e = true →
        (e ∈ sgxApplySections hostEcx T sections i ↔ e ∈ T)) := by
  induction sections with
  | nil =>
    intro i T hU
    refine ⟨hU, ?_, ?_⟩
    · intro k hk
      exact absurd hk (by simp)
    · intro f2 i2 _
      exact ⟨rfl, fun e _ => Iff.rfl⟩
  | cons s rest ih =>
    intro i T hU
    obtain ⟨start, size⟩ := s
    have hstep : sgxApplySections hostEcx T ((start, size) :: rest) i
        = sgxApplySections hostEcx
            (setFourRegs T 0x12 (i + 2) (sgxSectionEax start) (sgxSectionEbx start)
              (sgxSectionEcx size hostEcx) (sgxSectionEdx size))
            rest (i + 1) := rfl
    obtain ⟨hvex, hvvals, hvframe⟩ := setFour_vals T 0x12 (i + 2) (sgxSectionEax start)
      (sgxSectionEbx start) (sgxSectionEcx size hostEcx) (sgxSectionEdx size)
    obtain ⟨hcU, hcone, hcother⟩ := setFour_counts T 0x12 (i + 2) (sgxSectionEax start)
      (sgxSectionEbx start) (sgxSectionEcx size hostEcx) (sgxSectionEdx size) hU
    obtain ⟨ihU, ihvals, ihframe⟩ := ih (i + 1)
      (setFourRegs T 0x12 (i + 2) (sgxSectionEax start) (sgxSectionEbx start)
        (sgxSectionEcx size hostEcx) (sgxSectionEdx size)) hcU
    rw [hstep]
    refine ⟨ihU, ?_, ?_⟩
    · intro k hk
      cases k with
      | zero =>
        have hcond : (0x12 : Nat) ≠ 0x12 ∨ i + 2 + 0 < (i + 1) + 2
            ∨ (i + 1) + 2 + rest.length ≤ i + 2 + 0 := by
          right
          left
          omega
        obtain ⟨hcnt, hmem⟩ := ihframe 0x12 (i + 2 + 0) hcond
        constructor
        · rw [hcnt]
          have : i + 2 + 0 = i + 2 := by omega
          rw [this]
          exact hcone
        · intro e he hke
          have he1 : e ∈ setFourRegs T 0x12 (i + 2) (sgxSectionEax start) (sgxSectionEbx start)
              (sgxSectionEcx size hostEcx) (sgxSectionEdx size) := (hmem e hke).mp he
          have hke2 : keyMatch 0x12 (i + 2) e = true := by
            have : i + 2 + 0 = i + 2 := by omega
            rwa [this] at hke
          have := hvvals e he1 hke2
          simpa using this
      | succ k =>
        have hk2 : k < rest.length := by
          simpa using hk
        have harith : i + 2 + (k + 1) = (i + 1) + 2 + k := by omega
        obtain ⟨hcnt, hvals⟩ := ihvals k hk2
        constructor
        · rw [harith]
          exact hcnt
        · intro e he hke
          rw [harith] at hke
          have := hvals e he hke
          simpa using this
    · intro f2 i2 hcond
      have hcond2 : f2 ≠ 0x12 ∨ i2 < (i + 1) + 2 ∨ (i + 1) + 2 + rest.length ≤ i2 := by
        rcases hcond with h | h | h
        · exact Or.inl h
        · right; left; omega
        · right
          right
          simp only [List.length_cons] at h
          omega
      have hne : ¬(f2 = 0x12 ∧ i2 = i + 2) := by
        rintro ⟨rfl, rfl⟩
        rcases hcond with h | h | h
        · exact h rfl
        · omega
        · simp only [List.length_cons] at h
          omega
      obtain ⟨ihcnt, ihmem⟩ := ihframe f2 i2 hcond2
      constructor
      · rw [ihcnt]
        exact hcother f2 i2 hne
      · intro e hke
        rw [ihmem e hke]
        exact hvframe f2 i2 hne e hke

/-- For a u64 section start the page-masked u32 cast in EAX is exact. -/
theorem sgxSectionEax_eq (start : Nat) :
    sgxSectionEax start = (start &&& 0xfffff000) ||| 1 := by
  unfold sgxSectionEax
  congr 1
  exact Nat.mod_eq_of_lt (lt_of_le_of_lt Nat.and_le_right (by norm_num))

/-- For a u64 section start the u32 cast of the high half in EBX is exact. -/
theorem sgxSectionEbx_eq (start : Nat) (h : start < 2 ^ 64) :
    sgxSectionEbx start = start >>> 32 := by
  unfold sgxSectionEbx
  apply Nat.mod_eq_of_lt
  rw [Nat.shiftRight_eq_div_pow]
  refine (Nat.div_lt_iff_lt_mul (by norm_num)).mpr ?_
  calc start < 2 ^ 64 := h
    _ = 4294967296 * 2 ^ 32 := by norm_num

/-- For a u64 section size the page-masked u32 cast in ECX is exact. -/
theorem sgxSectionEcx_eq (size hostEcx : Nat) :
    sgxSectionEcx size hostEcx = (size &&& 0xfffff000) ||| (hostEcx &&& 0xf) := by
  unfold sgxSectionEcx
  congr 1
  exact Nat.mod_eq_of_lt (lt_of_le_of_lt Nat.and_le_right (by norm_num))

/-- For a u64 section size the u32 cast of the high half in EDX is exact. -/
theorem sgxSectionEdx_eq (size : Nat) (h : size < 2 ^ 64) :
    sgxSectionEdx size = size >>> 32 := by
  unfold sgxSectionEdx
  apply Nat.mod_eq_of_lt
  rw [Nat.shiftRight_eq_div_pow]
  refine (Nat.div_lt_iff_lt_mul (by norm_num)).mpr ?_
  calc size < 2 ^ 64 := h
    _ = 4294967296 * 2 ^ 32 := by norm_num

/-- C8: update_cpuid_sgx returns NoSgxEpcSection on an empty section list,
MissingSgxFeature when leaf 7 sub-leaf 0 EBX bit 2 is absent, and
MissingSgxLaunchControlFeature when leaf 7 sub-leaf 0 ECX bit 30 is absent
(the checks run in that order); in each error case the CPUID table is
returned exactly as it was. -/
theorem update_cpuid_sgx_errors (T : List CpuIdEntry) (sections : List (Nat × Nat))
    (hostEcx : Nat) :
    (sections = [] → update_cpuid_sgx T sections hostEcx = (.error .NoSgxEpcSection, T)) ∧
    (sections ≠ [] → is_feature_enabled T 0x7 0 .EBX 2 = false →
      update_cpuid_sgx T sections hostEcx = (.error .MissingSgxFeature, T)) ∧
    (sections ≠ [] → is_feature_enabled T 0x7 0 .EBX 2 = true →
      is_feature_enabled T 0x7 0 .ECX 30 = false →
      update_cpuid_sgx T sections hostEcx = (.error .MissingSgxLaunchControlFeature, T)) := by
  refine ⟨?_, ?_, ?_⟩
  · intro h
    subst h
    rfl
  · intro hne hf
    have hempty : sections.isEmpty = false := by
      cases sections with
      | nil => exact absurd rfl hne
      | cons a l => rfl
    simp [update_cpuid_sgx, hempty, hf]
  · intro hne hf hg
    have hempty : sections.isEmpty = false := by
      cases sections with
      | nil => exact absurd rfl hne
      | cons a l => rfl
    simp [update_cpuid_sgx, hempty, hf, hg]

/-- Witness for C8: each error case hit on a concrete table and section
list, with the input table handed back untouched. -/
theorem update_cpuid_sgx_errors_witness :
    update_cpuid_sgx [] [] 0 = (.error .NoSgxEpcSection, []) ∧
    update_cpuid_sgx [] [(0, 0)] 0 = (.error .MissingSgxFeature, []) ∧
    update_cpuid_sgx [⟨7, 0, 0, 0, 4, 0, 0⟩] [(0, 0)] 0
      = (.error .MissingSgxLaunchControlFeature, [⟨7, 0, 0, 0, 4, 0, 0⟩]) :=
  ⟨(update_cpuid_sgx_errors [] [] 0).1 rfl,
   (update_cpuid_sgx_errors [] [(0, 0)] 0).2.1 (by decide) (by decide),
   (update_cpuid_sgx_errors [⟨7, 0, 0, 0, 4, 0, 0⟩] [(0, 0)] 0).2.2 (by decide) (by decide)
     (by decide)⟩

/-- C4: on a non-empty section list and a table (with unique keys) that has
the SGX and SGX-launch-control bits set, update_cpuid_sgx succeeds; the
section at position k yields exactly one sub-leaf at index k+2 of leaf 0x12
with EAX = (start & 0xfffff000) | 1, EBX = start >> 32, ECX = (size &
0xfffff000) | low nibble of the host cache property, EDX = size >> 32; and
exactly one trailing sub-leaf at index N+2 has all four registers zero. -/
theorem update_cpuid_sgx_sections (T : List CpuIdEntry) (sections : List (Nat × Nat))
    (hostEcx : Nat)
    (hne : sections ≠ [])
    (hU : ∀ f2 i2, T.countP (keyMatch f2 i2) ≤ 1)
    (hbounds : ∀ p ∈ sections, p.1 < 2 ^ 64 ∧ p.2 < 2 ^ 64)
    (hsgx : is_feature_enabled T 0x7 0 .EBX 2 = true)
    (hlc : is_feature_enabled T 0x7 0 .ECX 30 = true) :
    (update_cpuid_sgx T sections hostEcx).1 = .ok () ∧
    (∀ k (hk : k < sections.length),
      (update_cpuid_sgx T sections hostEcx).2.countP (keyMatch 0x12 (k + 2)) = 1 ∧
      ∀ e ∈ (update_cpuid_sgx T sections hostEcx).2, keyMatch 0x12 (k + 2) e = true →
        e.eax = ((sections.get ⟨k, hk⟩).1 &&& 0xfffff000) ||| 1 ∧
        e.ebx = (sections.get ⟨k, hk⟩).1 >>> 32 ∧
        e.ecx = ((sections.get ⟨k, hk⟩).2 &&& 0xfffff000) ||| (hostEcx &&& 0xf) ∧
        e.edx = (sections.get ⟨k, hk⟩).2 >>> 32) ∧
    ((update_cpuid_sgx T sections hostEcx).2.countP
        (keyMatch 0x12 (sections.length + 2)) = 1 ∧
      ∀ e ∈ (update_cpuid_sgx T sections hostEcx).2,
        keyMatch 0x12 (sections.length + 2) e = true →
        e.eax = 0 ∧ e.ebx = 0 ∧ e.ecx = 0 ∧ e.edx = 0) := by
  have hempty : sections.isEmpty = false := by
    cases sections with
    | nil => exact absurd rfl hne
    | cons a l => rfl
  have hred : update_cpuid_sgx T sections hostEcx
      = (.ok (), setFourRegs (sgxApplySections hostEcx T sections 0) 0x12
          (sections.length + 2) 0 0 0 0) := by
    simp [update_cpuid_sgx, hempty, hsgx, hlc]
  obtain ⟨ihU, ihvals, ihframe⟩ := sgxApplySections_spec hostEcx sections 0 T hU
  obtain ⟨hvex, hvvals, hvframe⟩ := setFour_vals (sgxApplySections hostEcx T sections 0)
    0x12 (sections.length + 2) 0 0 0 0
  obtain ⟨hcU, hcone, hcother⟩ := setFour_counts (sgxApplySections hostEcx T sections 0)
    0x12 (sections.length + 2) 0 0 0 0 ihU
  rw [hred]
  refine ⟨rfl, ?_, ?_⟩
  · intro k hk
    have hne2 : ¬((0x12 : Nat) = 0x12 ∧ k + 2 = sections.length + 2) := by
      rintro ⟨-, h2⟩
      omega
    constructor
    · rw [hcother 0x12 (k + 2) hne2]
      have harith : k + 2 = 0 + 2 + k := by omega
      rw [harith]
      exact (ihvals k hk).1
    · intro e he hke
      have he1 : e ∈ sgxApplySections hostEcx T sections 0 :=
        (hvframe 0x12 (k + 2) hne2 e hke).mp he
      have harith : k + 2 = 0 + 2 + k := by omega
      rw [harith] at hke
      obtain ⟨h1, h2, h3, h4⟩ := (ihvals k hk).2 e he1 hke
      have hb := hbounds (sections.get ⟨k, hk⟩) (List.get_mem sections _ _)
      refine ⟨?_, ?_, ?_, ?_⟩
      · rw [h1, sgxSectionEax_eq]
      · rw [h2, sgxSectionEbx_eq _ hb.1]
      · rw [h3, sgxSectionEcx_eq]
      · rw [h4, sgxSectionEdx_eq _ hb.2]
  · refine ⟨hcone, ?_⟩
    intro e he hke
    exact hvvals e he hke

/-- A one-entry table trivially satisfies the at-most-one-per-key
invariant. -/
theorem countP_singleton_le_one (p : CpuIdEntry → Bool) (x : CpuIdEntry) :
    List.countP p [x] ≤ 1 := by
  by_cases h : p x = true <;> simp [List.countP_cons, h]

/-- Witness for C4: one section on a table holding the two SGX feature
bits; the call succeeds. -/
theorem update_cpuid_sgx_sections_witness :
    (update_cpuid_sgx [⟨7, 0, 0, 0, 4, 0x40000000, 0⟩] [(0x12345000, 0x2000)] 9).1 = .ok () :=
  (update_cpuid_sgx_sections [⟨7, 0, 0, 0, 4, 0x40000000, 0⟩] [(0x12345000, 0x2000)] 9
    (by decide) (fun f2 i2 => countP_singleton_le_one _ _) (by decide) (by decide)
    (by decide)).1

/-- Number of leading zero bits in the 8-bit representation of m — the
embedding of u8::leading_zeros for m < 256, written as a comparison chain
so that it evaluates by kernel reduction. -/
def u8LeadingZeros (m : Nat) : Nat :=
  if 128 ≤ m then 0
  else if 64 ≤ m then 1
  else if 32 ≤ m then 2
  else if 16 ≤ m then 3
  else if 8 ≤ m then 4
  else if 4 ≤ m then 5
  else if 2 ≤ m then 6
  else if 1 ≤ m then 7
  else 8

/-- thread_width of update_cpuid_topology:
8 - (threads_per_core - 1).leading_zeros(). -/
def topoThreadWidth (threads_per_core : Nat) : Nat :=
  8 - u8LeadingZeros (threads_per_core - 1)

/-- core_width of update_cpuid_topology:
(8 - (cores_per_die - 1).leading_zeros()) + thread_width. -/
def topoCoreWidth (threads_per_core cores_per_die : Nat) : Nat :=
  (8 - u8LeadingZeros (cores_per_die - 1)) + topoThreadWidth threads_per_core

/-- die_width of update_cpuid_topology:
(8 - (dies_per_package - 1).leading_zeros()) + core_width. -/
def topoDieWidth (threads_per_core cores_per_die dies_per_package : Nat) : Nat :=
  (8 - u8LeadingZeros (dies_per_package - 1)) + topoCoreWidth threads_per_core cores_per_die

set_option maxRecDepth 4096 in
/-- The width computation is the ceiling base-2 logarithm on the u8 range:
the count fits in the width and, except for count 1 (width 0), one bit less
does not. -/
theorem topoThreadWidth_ceil_log2 :
    ∀ t, t < 256 → 1 ≤ t →
      t ≤ 2 ^ topoThreadWidth t ∧ (t = 1 ∨ 2 ^ (topoThreadWidth t - 1) < t) := by
  decide

/-- update_cpuid_topology: fifteen set_cpuid_reg calls writing EAX/EBX/ECX
at the five topology levels — leaf 0xb sub-leaves 0 (thread) and 1, leaf
0x1f sub-leaves 0 (thread), 1 (core) and 2 (die). The EBX logical-CPU
counts are u8 products in the source, hence the % 256. -/
def update_cpuid_topology (cpuid : List CpuIdEntry)
    (threads_per_core cores_per_die dies_per_package : Nat) : List CpuIdEntry :=
  setThreeRegs
    (setThreeRegs
      (setThreeRegs
        (setThreeRegs
          (setThreeRegs cpuid 0xb 0 (topoThreadWidth threads_per_core) threads_per_core
            (1 <<< 8))
          0xb 1 (topoDieWidth threads_per_core cores_per_die dies_per_package)
          ((dies_per_package * cores_per_die * threads_per_core) % 256) (2 <<< 8))
        0x1f 0 (topoThreadWidth threads_per_core) threads_per_core (1 <<< 8))
      0x1f 1 (topoCoreWidth threads_per_core cores_per_die)
      ((cores_per_die * threads_per_core) % 256) (2 <<< 8))
    0x1f 2 (topoDieWidth threads_per_core cores_per_die dies_per_package)
    ((dies_per_package * cores_per_die * threads_per_core) % 256) (5 <<< 8)

/-- A topology level is present in a table: some entry carries the key, and
every entry carrying the key holds the given EAX width and ECX level tag. -/
def hasLevel (T : List CpuIdEntry) (f i w tag : Nat) : Prop :=
  (∃ e ∈ T, keyMatch f i e = true) ∧
  (∀ e ∈ T, keyMatch f i e = true → e.eax = w ∧ e.ecx = tag)

theorem hasLevel_setThree_self (T : List CpuIdEntry) (f i a b c : Nat) :
    hasLevel (setThreeRegs T f i a b c) f i a c := by
  obtain ⟨hex, hvals, -⟩ := setThree_vals T f i a b c
  exact ⟨hex, fun e he hk => ⟨(hvals e he hk).1, (hvals e he hk).2.2⟩⟩

theorem hasLevel_setThree_other (T : List CpuIdEntry) (f i a b c f2 i2 w tag : Nat)
    (hne : ¬(f2 = f ∧ i2 = i)) (h : hasLevel T f2 i2 w tag) :
    hasLevel (setThreeRegs T f i a b c) f2 i2 w tag := by
  obtain ⟨-, -, hframe⟩ := setThree_vals T f i a b c
  obtain ⟨⟨e, he, hk⟩, hvals⟩ := h
  refine ⟨⟨e, (hframe f2 i2 hne e hk).mpr he, hk⟩, ?_⟩
  intro e2 he2 hk2
  exact hvals e2 ((hframe f2 i2 hne e2 hk2).mp he2) hk2

set_option maxRecDepth 4096 in
/-- C1 counterexample: with topology (threads_per_core, cores_per_die,
dies_per_package) = (1, 1, 2) the core width is 0, yet the legacy leaf 0xb
sub-leaf 1 entry produced by update_cpuid_topology carries EAX = 1 (the die
width), so the claim's core-width reading of that sub-leaf is false. -/
theorem update_cpuid_topology_counterexample :
    topoCoreWidth 1 1 = 0 ∧
    ¬ (∀ e ∈ update_cpuid_topology [] 1 1 2,
        e.function = 0xb → e.index = 1 → e.eax = topoCoreWidth 1 1) := by
  decide

/-- C1 (amended): for every 1-255-valued topology triple, after
update_cpuid_topology both topology leaves carry sub-leaf 0 with EAX =
thread width and ECX level tag 1<<8; leaf 0x1f carries sub-leaf 1 with
EAX = core width (tag 2<<8) and an additional sub-leaf 2 with EAX = die
width (tag 5<<8); the legacy leaf 0xb however carries at sub-leaf 1 the
die width (tag 2<<8), not the core width as originally claimed. -/
theorem update_cpuid_topology_levels (T : List CpuIdEntry)
    (threads_per_core cores_per_die dies_per_package : Nat)
    (h1 : 1 ≤ threads_per_core) (h2 : 1 ≤ cores_per_die) (h3 : 1 ≤ dies_per_package)
    (h4 : threads_per_core < 256) (h5 : cores_per_die < 256) (h6 : dies_per_package < 256) :
    hasLevel (update_cpuid_topology T threads_per_core cores_per_die dies_per_package)
      0xb 0 (topoThreadWidth threads_per_core) (1 <<< 8) ∧
    hasLevel (update_cpuid_topology T threads_per_core cores_per_die dies_per_package)
      0xb 1 (topoDieWidth threads_per_core cores_per_die dies_per_package) (2 <<< 8) ∧
    hasLevel (update_cpuid_topology T threads_per_core cores_per_die dies_per_package)
      0x1f 0 (topoThreadWidth threads_per_core) (1 <<< 8) ∧
    hasLevel (update_cpuid_topology T threads_per_core cores_per_die dies_per_package)
      0x1f 1 (topoCoreWidth threads_per_core cores_per_die) (2 <<< 8) ∧
    hasLevel (update_cpuid_topology T threads_per_core cores_per_die dies_per_package)
      0x1f 2 (topoDieWidth threads_per_core cores_per_die dies_per_package) (5 <<< 8) := by
  unfold update_cpuid_topology
  refine ⟨?_, ?_, ?_, ?_, ?_⟩
  · exact hasLevel_setThree_other _ 0x1f 2 _ _ _ 0xb 0 _ _ (by decide)
      (hasLevel_setThree_other _ 0x1f 1 _ _ _ 0xb 0 _ _ (by decide)
        (hasLevel_setThree_other _ 0x1f 0 _ _ _ 0xb 0 _ _ (by decide)
          (hasLevel_setThree_other _ 0xb 1 _ _ _ 0xb 0 _ _ (by decide)
            (hasLevel_setThree_self T 0xb 0 _ _ _))))
  · exact hasLevel_setThree_other _ 0x1f 2 _ _ _ 0xb 1 _ _ (by decide)
      (hasLevel_setThree_other _ 0x1f 1 _ _ _ 0xb 1 _ _ (by decide)
        (hasLevel_setThree_other _ 0x1f 0 _ _ _ 0xb 1 _ _ (by decide)
          (hasLevel_setThree_self _ 0xb 1 _ _ _)))
  · exact hasLevel_setThree_other _ 0x1f 2 _ _ _ 0x1f 0 _ _ (by decide)
      (hasLevel_setThree_other _ 0x1f 1 _ _ _ 0x1f 0 _ _ (by decide)
        (hasLevel_setThree_self _ 0x1f 0 _ _ _))
  · exact hasLevel_setThree_other _ 0x1f 2 _ _ _ 0x1f 1 _ _ (by decide)
      (hasLevel_setThree_self _ 0x1f 1 _ _ _)
  · exact hasLevel_setThree_self _ 0x1f 2 _ _ _

/-- Witness for C1 on topology (2, 3, 2): the legacy leaf's sub-leaf 1
carries the die width. -/
theorem update_cpuid_topology_levels_witness :
    hasLevel (update_cpuid_topology [] 2 3 2) 0xb 1 (topoDieWidth 2 3 2) (2 <<< 8) :=
  (update_cpuid_topology_levels [] 2 3 2 (by decide) (by decide) (by decide) (by decide)
    (by decide) (by decide)).2.1

/-- The per-entry body of generate_common_cpuid's "update some existing
CPUID" loop in a non-TDX build (the 0xd arm is then empty and is omitted).
The host CPUID reads of the L2-backfill arm are parameters: hostMaxExtLeaf
is the host's leaf 0x80000000 EAX, l2eax..l2edx the host's leaf 0x80000006.
0xffffbfff is the u32 complement of 1 << 14 (KVM_FEATURE_ASYNC_PF_INT). -/
def updateExistingEntry (phys_bits hostMaxExtLeaf l2eax l2ebx l2ecx l2edx : Nat)
    (e : CpuIdEntry) : CpuIdEntry :=
  if e.function == 0x80000006 then
    if e.eax == 0 && e.ebx == 0 && e.ecx == 0 && e.edx == 0 then
      if 0x80000006 ≤ hostMaxExtLeaf then
        { e with eax := l2eax, ebx := l2ebx, ecx := l2ecx, edx := l2edx }
      else e
    else e
  else if e.function == 0x80000008 then
    { e with eax := (e.eax &&& 0xffffff00) ||| (phys_bits &&& 0xff) }
  else if e.function == 0x40000001 then
    { e with eax := e.eax &&& 0xffffbfff }
  else e

/-- The whole "update some existing CPUID" loop of generate_common_cpuid,
applied entry by entry. -/
def updateExistingCpuid (phys_bits hostMaxExtLeaf l2eax l2ebx l2ecx l2edx : Nat)
    (cpuid : List CpuIdEntry) : List CpuIdEntry :=
  cpuid.map (updateExistingEntry phys_bits hostMaxExtLeaf l2eax l2ebx l2ecx l2edx)

theorem mask_ff00_eq : (0xffffff00 : Nat) = (2 ^ 32 - 1) ^^^ (2 ^ 8 - 1) := by decide

theorem testBit_mask_low (b : Nat) (hb : b < 8) : (0xffffff00 : Nat).testBit b = false := by
  rw [mask_ff00_eq, Nat.testBit_xor, Nat.testBit_two_pow_sub_one, Nat.testBit_two_pow_sub_one]
  have h32 : b < 32 := by omega
  simp [hb, h32]

theorem testBit_mask_high (b : Nat) (hb8 : 8 ≤ b) (hb32 : b < 32) :
    (0xffffff00 : Nat).testBit b = true := by
  rw [mask_ff00_eq, Nat.testBit_xor, Nat.testBit_two_pow_sub_one, Nat.testBit_two_pow_sub_one]
  have hb : ¬ b < 8 := by omega
  simp [hb, hb32]

theorem testBit_ff_low (b : Nat) (hb : b < 8) : (0xff : Nat).testBit b = true := by
  rw [show (0xff : Nat) = 2 ^ 8 - 1 from rfl, Nat.testBit_two_pow_sub_one]
  simp [hb]

theorem testBit_ff_high (b : Nat) (hb : 8 ≤ b) : (0xff : Nat).testBit b = false := by
  rw [show (0xff : Nat) = 2 ^ 8 - 1 from rfl, Nat.testBit_two_pow_sub_one]
  have : ¬ b < 8 := by omega
  simp [this]

/-- C9: the phys-bits adjustment of generate_common_cpuid forces bits 0-7
of EAX of every leaf-0x80000008 entry to the configured phys_bits value,
leaves EAX bits 8-31 unchanged, and leaves EBX, ECX and EDX (and the
table's length) unchanged. -/
theorem phys_bits_step (cpuid : List CpuIdEntry)
    (phys_bits hostMaxExtLeaf l2eax l2ebx l2ecx l2edx : Nat) (hpb : phys_bits < 256) :
    (updateExistingCpuid phys_bits hostMaxExtLeaf l2eax l2ebx l2ecx l2edx cpuid).length
      = cpuid.length ∧
    ∀ k (hk : k < cpuid.length)
      (hk2 : k <
        (updateExistingCpuid phys_bits hostMaxExtLeaf l2eax l2ebx l2ecx l2edx cpuid).length),
      (cpuid.get ⟨k, hk⟩).function = 0x80000008 →
      (∀ b, b < 8 →
        ((updateExistingCpuid phys_bits hostMaxExtLeaf l2eax l2ebx l2ecx l2edx cpuid).get
          ⟨k, hk2⟩).eax.testBit b = phys_bits.testBit b) ∧
      (∀ b, 8 ≤ b → b < 32 →
        ((updateExistingCpuid phys_bits hostMaxExtLeaf l2eax l2ebx l2ecx l2edx cpuid).get
          ⟨k, hk2⟩).eax.testBit b = (cpuid.get ⟨k, hk⟩).eax.testBit b) ∧
      ((updateExistingCpuid phys_bits hostMaxExtLeaf l2eax l2ebx l2ecx l2edx cpuid).get
        ⟨k, hk2⟩).ebx = (cpuid.get ⟨k, hk⟩).ebx ∧
      ((updateExistingCpuid phys_bits hostMaxExtLeaf l2eax l2ebx l2ecx l2edx cpuid).get
        ⟨k, hk2⟩).ecx = (cpuid.get ⟨k, hk⟩).ecx ∧
      ((updateExistingCpuid phys_bits hostMaxExtLeaf l2eax l2ebx l2ecx l2edx cpuid).get
        ⟨k, hk2⟩).edx = (cpuid.get ⟨k, hk⟩).edx := by
  refine ⟨by simp [updateExistingCpuid], ?_⟩
  intro k hk hk2 hfn
  have hget : (updateExistingCpuid phys_bits hostMaxExtLeaf l2eax l2ebx l2ecx l2edx cpuid).get
      ⟨k, hk2⟩ = updateExistingEntry phys_bits hostMaxExtLeaf l2eax l2ebx l2ecx l2edx
        (cpuid.get ⟨k, hk⟩) := by
    simp [updateExistingCpuid, List.get_eq_getElem, List.getElem_map]
  have hupd : ∀ e : CpuIdEntry, e.function = 0x80000008 →
      updateExistingEntry phys_bits hostMaxExtLeaf l2eax l2ebx l2ecx l2edx e
        = { e with eax := (e.eax &&& 0xffffff00) ||| (phys_bits &&& 0xff) } := by
    intro e he
    simp [updateExistingEntry, he]
  rw [hget, hupd _ hfn]
  refine ⟨?_, ?_, rfl, rfl, rfl⟩
  · intro b hb
    simp only [Nat.testBit_or, Nat.testBit_and]
    rw [testBit_mask_low b hb, testBit_ff_low b hb]
    simp
  · intro b hb8 hb32
    simp only [Nat.testBit_or, Nat.testBit_and]
    rw [testBit_mask_high b hb8 hb32, testBit_ff_high b hb8]
    simp

/-- Witness for C9 on a one-entry table with phys_bits = 46: EBX survives
and EAX bit 0 equals bit 0 of 46. -/
theorem phys_bits_step_witness :
    ((updateExistingCpuid 46 0 0 0 0 0 [⟨0x80000008, 0, 0, 0xabcd1234, 7, 8, 9⟩]).get
      ⟨0, by decide⟩).ebx = 7 ∧
    ((updateExistingCpuid 46 0 0 0 0 0 [⟨0x80000008, 0, 0, 0xabcd1234, 7, 8, 9⟩]).get
      ⟨0, by decide⟩).eax.testBit 1 = (46 : Nat).testBit 1 :=
  ⟨((phys_bits_step [⟨0x80000008, 0, 0, 0xabcd1234, 7, 8, 9⟩] 46 0 0 0 0 0 (by decide)).2
      0 (by decide) (by decide) (by decide)).2.2.1,
   ((phys_bits_step [⟨0x80000008, 0, 0, 0xabcd1234, 7, 8, 9⟩] 46 0 0 0 0 0 (by decide)).2
      0 (by decide) (by decide) (by decide)).1 1 (by decide)⟩

/-- Modelled from the spec: the guest-memory abstraction. Guest memory is
contiguous from address 0; lastAddr is the last valid guest address
(GuestMemory::last_addr). -/
structure GuestMem where
  lastAddr : Nat
deriving Repr, DecidableEq

/-- Modelled from the spec: a bounds-checked write of size bytes at addr
(GuestMemory::write_obj) succeeds iff the byte range fits in the memory. -/
def GuestMem.writeOk (m : GuestMem) (addr size : Nat) : Bool :=
  decide (addr + size ≤ m.lastAddr + 1)

/-- Modelled from the spec: GuestMemory::checked_offset — Some iff the
offset address is still a valid guest address. -/
def GuestMem.checkedOffset (m : GuestMem) (addr len : Nat) : Option Nat :=
  if addr + len ≤ m.lastAddr then some (addr + len) else none

/-- Modelled from the spec: layout::EBDA_POINTER, where ACPICA expects the
EBDA pointer. -/
def EBDA_POINTER : Nat := 0x40e

/-- Modelled from the spec: layout::EBDA_START. -/
def EBDA_START : Nat := 0xa0000

/-- Modelled from the spec: layout::SMBIOS_START, the fixed SMBIOS table
address. -/
def SMBIOS_START : Nat := 0xf0000

/-- Modelled from the spec: layout::HIGH_RAM_START, start of the high-RAM
memory-map entry. -/
def HIGH_RAM_START : Nat := 0x100000

/-- Modelled from the spec: layout::PVH_INFO_START, the fixed guest address
of the PVH start-info block. -/
def PVH_INFO_START : Nat := 0x6000

/-- Modelled from the spec: layout::MEMMAP_START, the fixed guest address
of the PVH memory-map table. -/
def MEMMAP_START : Nat := 0x7000

/-- Modelled from the spec: layout::MODLIST_START, the fixed guest address
of the PVH module list. -/
def MODLIST_START : Nat := 0x6040

/-- Modelled from the spec: layout::PCI_MMCONFIG_START. -/
def PCI_MMCONFIG_START : Nat := 0xe8000000

/-- Modelled from the spec: layout::PCI_MMCONFIG_SIZE. -/
def PCI_MMCONFIG_SIZE : Nat := 0x10000000

/-- E820-style memory-map type code for usable RAM. -/
def E820_RAM : Nat := 1

/-- E820-style memory-map type code for reserved ranges. -/
def E820_RESERVED : Nat := 2

/-- Modelled from the spec: size in bytes of the linux_loader
hvm_start_info record. -/
def HVM_START_INFO_SIZE : Nat := 56

/-- Modelled from the spec: size in bytes of one hvm_memmap_table_entry
record. -/
def HVM_MEMMAP_ENTRY_SIZE : Nat := 24

/-- Modelled from the spec: size in bytes of one hvm_modlist_entry
record. -/
def HVM_MODLIST_ENTRY_SIZE : Nat := 32

/-- Modelled from the spec: the byte size the modelled SMBIOS writer
reports. -/
def SMBIOS_TABLE_SIZE : Nat := 0x80

/-- Modelled from the spec: the byte size of the modelled MP table. -/
def MPTABLE_SIZE : Nat := 0x100

/-- The guest-visible writes configure_system and configure_pvh perform,
in order of execution. -/
inductive GuestWrite where
  | ebda
  | smbiosTable
  | mpTable
  | modlistEntry
  | memmapEntry
  | startInfo
deriving Repr, DecidableEq

/-- One hvm_memmap_table_entry: guest-physical range plus type code. -/
structure MemmapTableEntry where
  addr : Nat
  size : Nat
  type_ : Nat
  reserved : Nat
deriving Repr, DecidableEq

/-- add_memmap_entry: push one record with the given address, size and
type, reserved field zero. -/
def add_memmap_entry (memmap : List MemmapTableEntry) (addr size mem_type : Nat) :
    List MemmapTableEntry :=
  memmap ++ [{ addr := addr, size := size, type_ := mem_type, reserved := 0 }]

/-- Modelled from the spec: smbios::setup_smbios writes the SMBIOS table at
SMBIOS_START and returns its size — an external collaborator assumed
correct, modelled as one bounds-checked fixed-size write. -/
def setup_smbios (m : GuestMem) : Except X86Error Nat :=
  if m.writeOk SMBIOS_START SMBIOS_TABLE_SIZE then .ok SMBIOS_TABLE_SIZE
  else .error .SmbiosSetup

/-- Modelled from the spec: mptable::setup_mptable writes the MP table at
the given offset — an external collaborator assumed correct, modelled as
one bounds-checked fixed-size write (the real size depends on the CPU
count, which the model ignores). -/
def setup_mptable (m : GuestMem) (offset _num_cpus : Nat) : Except X86Error Unit :=
  if m.writeOk offset MPTABLE_SIZE then .ok () else .error .MpTableSetup

/-- The memory-map entry list configure_pvh builds, in its fixed order:
low RAM up to the EBDA, high RAM (clipped at the reserved gap, plus an
above-4GB entry when memory extends past it), the PCI MMCONFIG window as
reserved, and the SGX EPC region as reserved when configured. -/
def pvhMemmap (m : GuestMem) (sgx_epc_region : Option (Nat × Nat)) :
    List MemmapTableEntry :=
  let memmap := add_memmap_entry [] 0 EBDA_START E820_RAM
  let memmap :=
    if m.lastAddr < MEM_32BIT_RESERVED_START then
      add_memmap_entry memmap HIGH_RAM_START (m.lastAddr - HIGH_RAM_START + 1) E820_RAM
    else
      let memmap := add_memmap_entry memmap HIGH_RAM_START
        (MEM_32BIT_RESERVED_START - HIGH_RAM_START) E820_RAM
      if RAM_64BIT_START < m.lastAddr then
        add_memmap_entry memmap RAM_64BIT_START (m.lastAddr - RAM_64BIT_START + 1) E820_RAM
      else
        memmap
  let memmap := add_memmap_entry memmap PCI_MMCONFIG_START PCI_MMCONFIG_SIZE E820_RESERVED
  match sgx_epc_region with
  | some region => add_memmap_entry memmap region.1 region.2 E820_RESERVED
  | none => memmap

/-- The write loop over the memory-map records, at fixed-stride addresses
starting at MEMMAP_START. -/
def writeMemmapEntries (m : GuestMem) :
    Nat → List MemmapTableEntry → List GuestWrite → Except ArchError Unit × List GuestWrite
  | _, [], tr => (.ok (), tr)
  | addr, _ :: rest, tr =>
    if m.writeOk addr HVM_MEMMAP_ENTRY_SIZE then
      writeMemmapEntries m (addr + HVM_MEMMAP_ENTRY_SIZE) rest (tr ++ [.memmapEntry])
    else
      (.error .MemmapTableSetup, tr)

/-- The tail of configure_pvh from the memory-map bound check on: check
that the whole table fits, write the entries, check and write the
start-info block. -/
def configure_pvh_memmap (m : GuestMem) (sgx_epc_region : Option (Nat × Nat))
    (tr : List GuestWrite) : Except ArchError Unit × List GuestWrite :=
  match m.checkedOffset MEMMAP_START
      (HVM_MEMMAP_ENTRY_SIZE * (pvhMemmap m sgx_epc_region).length) with
  | none => (.error .MemmapTablePastRamEnd, tr)
  | some _ =>
    match writeMemmapEntries m MEMMAP_START (pvhMemmap m sgx_epc_region) tr with
    | (.error e, tr2) => (.error e, tr2)
    | (.ok _, tr2) =>
      match m.checkedOffset PVH_INFO_START HVM_START_INFO_SIZE with
      | none => (.error .StartInfoPastRamEnd, tr2)
      | some _ =>
        if m.writeOk PVH_INFO_START HVM_START_INFO_SIZE then (.ok (), tr2 ++ [.startInfo])
        else (.error .StartInfoSetup, tr2)

/-- configure_pvh: the module-list write when an initramfs is staged, then
the memory-map and start-info writes. The byte contents of the records
(magic, version, pointers) are not modelled — only which bounds-checked
guest writes happen, in which order, and with which failure — which is
what the write-ordering claims concern. -/
def configure_pvh (m : GuestMem) (_cmdline_addr : Nat) (initramfs : Option (Nat × Nat))
    (_rsdp_addr : Option Nat) (sgx_epc_region : Option (Nat × Nat)) (tr : List GuestWrite) :
    Except ArchError Unit × List GuestWrite :=
  match initramfs with
  | some _ =>
    if m.writeOk MODLIST_START HVM_MODLIST_ENTRY_SIZE then
      configure_pvh_memmap m sgx_epc_region (tr ++ [.modlistEntry])
    else
      (.error .ModlistSetup, tr)
  | none => configure_pvh_memmap m sgx_epc_region tr

/-- configure_system: EBDA pointer write, SMBIOS setup, MP-table setup
(at the 16-byte-aligned address after the SMBIOS table), then the RSDP
bound check, then the PVH boot descriptors via configure_pvh. The returned
list records the guest-visible writes performed, in order. -/
def configure_system (m : GuestMem) (cmdline_addr : Nat) (initramfs : Option (Nat × Nat))
    (_num_cpus : Nat) (rsdp_addr : Option Nat) (sgx_epc_region : Option (Nat × Nat)) :
    Except ArchError Unit × List GuestWrite :=
  if m.writeOk EBDA_POINTER 2 then
    match setup_smbios m with
    | .error e => (.error (.PlatformSpecific e), [.ebda])
    | .ok size =>
      match setup_mptable m ((SMBIOS_START + size + 16) &&& 0xfffffffffffffff0) _num_cpus with
      | .error e => (.error (.PlatformSpecific e), [.ebda, .smbiosTable])
      | .ok _ =>
        match rsdp_addr with
        | some r =>
          if m.lastAddr < r then
            (.error .RsdpPastRamEnd, [.ebda, .smbiosTable, .mpTable])
          else
            configure_pvh m cmdline_addr initramfs rsdp_addr sgx_epc_region
              [.ebda, .smbiosTable, .mpTable]
        | none =>
          configure_pvh m cmdline_addr initramfs rsdp_addr sgx_epc_region
            [.ebda, .smbiosTable, .mpTable]
  else
    (.error (.PlatformSpecific .EbdaSetup), [])

/-- C2 counterexample: one MiB of guest memory (last address 0xfffff) and
an RSDP address beyond it — configure_system does return RsdpPastRamEnd,
but the EBDA-pointer, SMBIOS and MP-table writes have already been
performed, refuting the claim that the error precedes every guest-visible
write. -/
theorem configure_system_counterexample :
    (configure_system ⟨0xfffff⟩ 0 none 1 (some 0x200000) none).1
      = .error .RsdpPastRamEnd ∧
    (configure_system ⟨0xfffff⟩ 0 none 1 (some 0x200000) none).2
      = [.ebda, .smbiosTable, .mpTable] := by
  constructor <;> rfl

/-- C2 (amended): whenever the supplied RSDP address lies beyond the last
valid guest address and the three preceding setup writes fit in guest
memory, configure_system returns RsdpPastRamEnd before any PVH write —
but after the EBDA-pointer, SMBIOS and MP-table writes, which have already
happened (the write trace is exactly those three). -/
theorem configure_system_rsdp_past_ram (m : GuestMem) (cmdline_addr : Nat)
    (initramfs : Option (Nat × Nat)) (ncpus : Nat) (r : Nat) (sgx : Option (Nat × Nat))
    (hfit : SMBIOS_START + SMBIOS_TABLE_SIZE + 16 + MPTABLE_SIZE ≤ m.lastAddr)
    (hr : m.lastAddr < r) :
    configure_system m cmdline_addr initramfs ncpus (some r) sgx
      = (.error .RsdpPastRamEnd, [.ebda, .smbiosTable, .mpTable]) := by
  have hlast : 0xf0190 ≤ m.lastAddr := by
    simpa [SMBIOS_START, SMBIOS_TABLE_SIZE, MPTABLE_SIZE] using hfit
  have h1 : m.writeOk EBDA_POINTER 2 = true := by
    simp only [GuestMem.writeOk, decide_eq_true_eq, EBDA_POINTER]
    omega
  have h2 : setup_smbios m = .ok SMBIOS_TABLE_SIZE := by
    unfold setup_smbios
    have : m.writeOk SMBIOS_START SMBIOS_TABLE_SIZE = true := by
      simp only [GuestMem.writeOk, decide_eq_true_eq, SMBIOS_START, SMBIOS_TABLE_SIZE]
      omega
    rw [if_pos this]
  have hoff : (SMBIOS_START + SMBIOS_TABLE_SIZE + 16) &&& 0xfffffffffffffff0 = 0xf0090 := by
    decide
  have h3 : setup_mptable m ((SMBIOS_START + SMBIOS_TABLE_SIZE + 16) &&& 0xfffffffffffffff0)
      ncpus = .ok () := by
    unfold setup_mptable
    rw [hoff]
    have : m.writeOk 0xf0090 MPTABLE_SIZE = true := by
      simp only [GuestMem.writeOk, decide_eq_true_eq, MPTABLE_SIZE]
      omega
    rw [if_pos this]
  unfold configure_system
  rw [if_pos h1, h2]
  dsimp only
  rw [h3]
  dsimp only
  rw [if_pos hr]

/-- Witness for C2's amended statement at a concrete memory and RSDP
address. -/
theorem configure_system_rsdp_past_ram_witness :
    configure_system ⟨0x100000⟩ 0 none 4 (some 0x200000) none
      = (.error .RsdpPastRamEnd, [.ebda, .smbiosTable, .mpTable]) :=
  configure_system_rsdp_past_ram ⟨0x100000⟩ 0 none 4 0x200000 none (by decide) (by decide)
